import Mathlib

/-!
Verification development for the threads-analytics repository.

The embedding models, directly from the Python sources:
- `src/utils/crypto_utils.py` — the `CryptoManager` secret store
  (`encrypt_credentials`, `load_credentials`, `get_single_credential`);
- `src/threads_api/client.py` — the `ThreadsAPIClient` request layer
  (`_make_api_request`), pagination (`get_user_posts`) and the insights
  batch engine (`_should_update_cache`, `_update_cache`,
  `_process_single_insight`, `get_post_insights`).

Python dictionaries are embedded as association lists with first-match
lookup and update-in-place-or-append insertion, which reproduces dict
membership, indexing, update and insertion-order iteration. Machine
integers and timestamps are `Nat`. Network I/O is passed in as an
explicit oracle; exceptions become `Except`/`Option` values.
-/

set_option autoImplicit false

namespace ThreadsAnalytics

/-! ## Python dict model -/

/-- Lookup of `d[k]` / `d.get(k)`: first entry with the given key. -/
def dget {α : Type} (d : List (String × α)) (k : String) : Option α :=
  match d with
  | [] => none
  | (k1, v) :: rest => if k1 = k then some v else dget rest k

/-- Membership test `k in d`. -/
def dmem {α : Type} (k : String) (d : List (String × α)) : Bool :=
  (dget d k).isSome

/-- Assignment `d[k] = v`: update the existing entry in place, else append
(Python dicts keep insertion order). -/
def dinsert {α : Type} (k : String) (v : α) : List (String × α) → List (String × α)
  | [] => [(k, v)]
  | (k1, v1) :: rest =>
      if k1 = k then (k, v) :: rest else (k1, v1) :: dinsert k v rest

/-- Keys of a dict, in insertion order. -/
def dkeys {α : Type} (d : List (String × α)) : List String :=
  d.map Prod.fst

theorem dget_dinsert_self {α : Type} (d : List (String × α)) (k : String) (v : α) :
    dget (dinsert k v d) k = some v := by
  induction d with
  | nil => simp [dinsert, dget]
  | cons hd tl ih =>
      obtain ⟨k1, v1⟩ := hd
      by_cases h : k1 = k
      · simp [dinsert, h, dget]
      · simp [dinsert, h, dget, ih]

theorem dget_dinsert_ne {α : Type} (d : List (String × α)) (k k2 : String) (v : α)
    (h : k ≠ k2) : dget (dinsert k v d) k2 = dget d k2 := by
  induction d with
  | nil => simp [dinsert, dget, h]
  | cons hd tl ih =>
      obtain ⟨k1, v1⟩ := hd
      by_cases h1 : k1 = k
      · subst h1
        simp [dinsert, dget, h]
      · simp only [dinsert, h1, if_false]
        by_cases h2 : k1 = k2
        · simp [dget, h2]
        · simp [dget, h2, ih]

theorem dmem_dinsert {α : Type} (d : List (String × α)) (k k2 : String) (v : α) :
    dmem k2 (dinsert k v d) = (k = k2 ∨ dmem k2 d : Bool) := by
  by_cases h : k = k2
  · subst h
    simp [dmem, dget_dinsert_self]
  · simp [dmem, dget_dinsert_ne d k k2 v h, h]

theorem dkeys_dinsert_of_mem {α : Type} (d : List (String × α)) (k : String) (v : α)
    (h : dmem k d = true) : dkeys (dinsert k v d) = dkeys d := by
  induction d with
  | nil => simp [dmem, dget] at h
  | cons hd tl ih =>
      obtain ⟨k1, v1⟩ := hd
      by_cases h1 : k1 = k
      · simp [dinsert, h1, dkeys]
      · simp only [dmem, dget, h1, if_false] at h
        have hih := ih h
        simp only [dkeys] at hih ⊢
        simp [dinsert, h1, List.map_cons, hih]

theorem dkeys_dinsert_of_not_mem {α : Type} (d : List (String × α)) (k : String) (v : α)
    (h : dmem k d = false) : dkeys (dinsert k v d) = dkeys d ++ [k] := by
  induction d with
  | nil => simp [dinsert, dkeys]
  | cons hd tl ih =>
      obtain ⟨k1, v1⟩ := hd
      by_cases h1 : k1 = k
      · subst h1
        simp [dmem, dget] at h
      · simp only [dmem, dget, h1, if_false] at h
        have hih := ih h
        simp only [dkeys] at hih ⊢
        simp [dinsert, h1, List.map_cons, hih]

theorem dmem_iff_mem_dkeys {α : Type} (d : List (String × α)) (k : String) :
    dmem k d = true ↔ k ∈ dkeys d := by
  induction d with
  | nil => simp [dmem, dget, dkeys]
  | cons hd tl ih =>
      obtain ⟨k1, v1⟩ := hd
      by_cases h1 : k1 = k
      · simp [dmem, dget, h1, dkeys]
      · simp only [dmem, dget, h1, if_false, dkeys, List.map_cons, List.mem_cons]
        rw [dmem] at ih
        rw [ih]
        constructor
        · exact fun h => Or.inr h
        · rintro (h | h)
          · exact absurd h.symm h1
          · exact h

theorem dkeys_nodup_dinsert {α : Type} (d : List (String × α)) (k : String) (v : α)
    (h : (dkeys d).Nodup) : (dkeys (dinsert k v d)).Nodup := by
  by_cases hm : dmem k d = true
  · rw [dkeys_dinsert_of_mem d k v hm]
    exact h
  · rw [dkeys_dinsert_of_not_mem d k v (by simpa using hm)]
    refine List.Nodup.append h (List.nodup_singleton k) ?_
    intro a ha hb
    simp only [List.mem_singleton] at hb
    subst hb
    exact absurd ((dmem_iff_mem_dkeys d a).mpr ha) (by simpa using hm)

theorem dget_eq_none_of_not_mem {α : Type} (d : List (String × α)) (k : String)
    (h : dmem k d = false) : dget d k = none := by
  cases hd : dget d k with
  | none => rfl
  | some v =>
      rw [dmem, hd] at h
      simp at h

/-! ## Secret store (src/utils/crypto_utils.py)

The credentials value space follows the data model: a flat mapping from
credential names to values that are either strings or flat string objects
(the google service-account object). -/

/-- Value held under one credential name: a string or a nested object of
string fields. -/
inductive CredValue where
  | str : String → CredValue
  | obj : List (String × String) → CredValue
deriving DecidableEq

/-- Decrypted credentials mapping, as produced by json.loads. -/
abbrev Creds : Type := List (String × CredValue)

/-- Modelled from the spec: the Python standard library json.dumps /
str.encode step, which the spec treats as an injective serialization with
loads as a two-sided inverse. Serialized bytes are a list of naturals; a
string is length-prefixed followed by its character codes. -/
def encStr (s : String) : List Nat :=
  s.length :: s.data.map Char.toNat

/-- Modelled from the spec: inverse direction of the string serialization;
consumes one length-prefixed string and returns the remaining bytes. -/
def decStr (bs : List Nat) : Option (String × List Nat) :=
  match bs with
  | [] => none
  | n :: rest =>
      if n ≤ rest.length then
        some (String.mk ((rest.take n).map Char.ofNat), rest.drop n)
      else none

theorem decStr_encStr (s : String) (t : List Nat) :
    decStr (encStr s ++ t) = some (s, t) := by
  obtain ⟨cs⟩ := s
  simp only [encStr, decStr, String.length, List.cons_append]
  have hlen : cs.length ≤ (List.map Char.toNat cs ++ t).length := by
    simp
  rw [if_pos hlen]
  have htake : (List.map Char.toNat cs ++ t).take cs.length = List.map Char.toNat cs := by
    rw [List.take_append_of_le_length (by simp)]
    simp
  have hdrop : (List.map Char.toNat cs ++ t).drop cs.length = t := by
    rw [List.drop_append_of_le_length (by simp)]
    simp
  rw [htake, hdrop]
  have hchars : List.map Char.ofNat (List.map Char.toNat cs) = cs := by
    rw [List.map_map]
    have : (Char.ofNat ∘ Char.toNat) = id := by
      funext c
      exact Char.ofNat_toNat c
    rw [this, List.map_id]
  rw [hchars]

/-- Modelled from the spec: serialization of one string pair of the nested
object form. -/
def encPair (p : String × String) : List Nat :=
  encStr p.1 ++ encStr p.2

/-- Modelled from the spec: serialization of a credential value; a leading
tag distinguishes the string and object forms. -/
def encCredValue : CredValue → List Nat
  | .str s => 0 :: encStr s
  | .obj kvs => 1 :: kvs.length :: kvs.foldr (fun p acc => encPair p ++ acc) []

/-- Modelled from the spec: decode a counted sequence of string pairs. -/
def decPairs : Nat → List Nat → Option (List (String × String) × List Nat)
  | 0, rest => some ([], rest)
  | n + 1, rest =>
      match decStr rest with
      | none => none
      | some (k, r1) =>
          match decStr r1 with
          | none => none
          | some (v, r2) =>
              match decPairs n r2 with
              | none => none
              | some (ps, r3) => some ((k, v) :: ps, r3)

/-- Modelled from the spec: decode one credential value. -/
def decCredValue (bs : List Nat) : Option (CredValue × List Nat) :=
  match bs with
  | 0 :: rest =>
      match decStr rest with
      | none => none
      | some (s, r1) => some (.str s, r1)
  | 1 :: n :: rest =>
      match decPairs n rest with
      | none => none
      | some (ps, r1) => some (.obj ps, r1)
  | _ => none

theorem decPairs_encPairs (kvs : List (String × String)) (t : List Nat) :
    decPairs kvs.length (kvs.foldr (fun p acc => encPair p ++ acc) [] ++ t) =
      some (kvs, t) := by
  induction kvs with
  | nil => simp [decPairs]
  | cons hd tl ih =>
      obtain ⟨k, v⟩ := hd
      have ih2 := ih
      simp only [encPair, List.append_assoc] at ih2
      simp only [List.foldr_cons, List.length_cons, encPair, decPairs, List.append_assoc,
        decStr_encStr, ih2]

theorem decCredValue_encCredValue (v : CredValue) (t : List Nat) :
    decCredValue (encCredValue v ++ t) = some (v, t) := by
  cases v with
  | str s =>
      simp only [encCredValue, List.cons_append, decCredValue]
      rw [decStr_encStr]
  | obj kvs =>
      simp only [encCredValue, List.cons_append, decCredValue]
      rw [decPairs_encPairs]

/-- Modelled from the spec: decode a counted sequence of credential
entries. -/
def decEntries : Nat → List Nat → Option (List (String × CredValue) × List Nat)
  | 0, rest => some ([], rest)
  | n + 1, rest =>
      match decStr rest with
      | none => none
      | some (k, r1) =>
          match decCredValue r1 with
          | none => none
          | some (v, r2) =>
              match decEntries n r2 with
              | none => none
              | some (es, r3) => some ((k, v) :: es, r3)

/-- Modelled from the spec: json.dumps of the full credentials mapping,
an entry count followed by the serialized entries. -/
def encCreds (m : Creds) : List Nat :=
  m.length :: m.foldr (fun p acc => encStr p.1 ++ encCredValue p.2 ++ acc) []

/-- Modelled from the spec: json.loads of the full credentials mapping;
fails on bytes that are not a complete serialized mapping. -/
def decCreds (bs : List Nat) : Option Creds :=
  match bs with
  | [] => none
  | n :: rest =>
      match decEntries n rest with
      | some (es, []) => some es
      | _ => none

theorem decEntries_encEntries (m : List (String × CredValue)) (t : List Nat) :
    decEntries m.length
      (m.foldr (fun p acc => encStr p.1 ++ encCredValue p.2 ++ acc) [] ++ t) =
      some (m, t) := by
  induction m with
  | nil => simp [decEntries]
  | cons hd tl ih =>
      obtain ⟨k, v⟩ := hd
      have ih2 := ih
      simp only [List.append_assoc] at ih2
      simp only [List.foldr_cons, List.length_cons, decEntries, List.append_assoc,
        decStr_encStr, decCredValue_encCredValue, ih2]

theorem decCreds_encCreds (m : Creds) : decCreds (encCreds m) = some m := by
  simp only [encCreds, decCreds]
  have h := decEntries_encEntries m []
  rw [List.append_nil] at h
  rw [h]

/-! ## Fernet model

Modelled from the spec: Fernet authenticated symmetric encryption
(cryptography.fernet, a library external to the repository). The spec
relies on its contract: decryption with the minting key returns the exact
plaintext; decryption of a ciphertext whose bytes were altered in any way
(the `intact` flag records that the token bytes still equal the minted
ones), or decryption under a key other than the minting key, fails with
InvalidToken (authenticated-encryption tag mismatch). -/

/-- Ciphertext token produced by Fernet.encrypt. -/
structure FernetToken where
  minted_key : Nat
  payload : List Nat
  intact : Bool
deriving DecidableEq

/-- Modelled from the spec: Fernet.encrypt under a symmetric key. -/
def fernetEncrypt (key : Nat) (pt : List Nat) : FernetToken :=
  ⟨key, pt, true⟩

/-- Modelled from the spec: Fernet.decrypt; none models raising
InvalidToken. -/
def fernetDecrypt (key : Nat) (tok : FernetToken) : Option (List Nat) :=
  if tok.intact ∧ tok.minted_key = key then some tok.payload else none

/-- Modelled from the spec: corruption of the stored ciphertext, e.g. any
single-bit flip; authenticity of the altered bytes no longer verifies. -/
def tamperToken (tok : FernetToken) : FernetToken :=
  { tok with intact := false }

/-! ## CryptoManager (src/utils/crypto_utils.py lines 113-191)

The blob file on disk is an `Option FernetToken`; none is an absent file.
Each CryptoError raise site becomes one constructor; the generic
`except Exception` handlers re-raise a CryptoError that wraps the inner
error message, modelled by the wrap constructors. -/

/-- CryptoError values, one constructor per raise site. -/
inductive CryptoErr where
  | fileNotFound
  | invalidToken
  | jsonParseFailed
  | decryptFailedWrap (inner : CryptoErr)
  | credNotFound (key : String)
  | getCredWrap (key : String) (inner : CryptoErr)
deriving DecidableEq

/-- encrypt_credentials (lines 113-143): json.dumps the mapping, encrypt,
write the ciphertext to the blob path wholesale (overwriting any previous
blob); the returned value is the new content of the blob file. -/
def encrypt_credentials (key : Nat) (credentials : Creds) : FernetToken :=
  fernetEncrypt key (encCreds credentials)

/-- load_credentials (lines 145-176): fail if the blob file is absent
(raised inside the try, so the generic handler wraps it), decrypt
(InvalidToken is caught specifically), then json.loads. -/
def load_credentials (key : Nat) (blobFile : Option FernetToken) :
    Except CryptoErr Creds :=
  match blobFile with
  | none => .error (.decryptFailedWrap .fileNotFound)
  | some tok =>
      match fernetDecrypt key tok with
      | none => .error .invalidToken
      | some bytes =>
          match decCreds bytes with
          | none => .error (.decryptFailedWrap .jsonParseFailed)
          | some credentials => .ok credentials

/-- get_single_credential (lines 178-191): load the full mapping, check
membership, index; every failure is re-wrapped by the outer handler. -/
def get_single_credential (keyName : String) (key : Nat)
    (blobFile : Option FernetToken) : Except CryptoErr CredValue :=
  match load_credentials key blobFile with
  | .error e => .error (.getCredWrap keyName e)
  | .ok creds =>
      match dget creds keyName with
      | none => .error (.getCredWrap keyName (.credNotFound keyName))
      | some v => .ok v

theorem load_encrypt_roundtrip (key : Nat) (m : Creds) :
    load_credentials key (some (encrypt_credentials key m)) = .ok m := by
  simp [load_credentials, encrypt_credentials, fernetEncrypt, fernetDecrypt,
    decCreds_encCreds]

instance {ε α : Type} [DecidableEq ε] [DecidableEq α] : DecidableEq (Except ε α)
  | .error e, .error f =>
      if h : e = f then .isTrue (by rw [h])
      else .isFalse (fun hh => h (by injection hh))
  | .error _, .ok _ => .isFalse (fun hh => Except.noConfusion hh)
  | .ok _, .error _ => .isFalse (fun hh => Except.noConfusion hh)
  | .ok x, .ok y =>
      if h : x = y then .isTrue (by rw [h])
      else .isFalse (fun hh => h (by injection hh))

/-! ## Request layer (src/threads_api/client.py lines 75-99)

The transport outcome of requests.get is passed in explicitly: an error
models a raised requests.exceptions.RequestException, an ok result is the
HTTP response that came back. The second component of the result is the
total time slept inside the call. -/

/-- Base URL constant from the client constructor (line 18). -/
def base_url : String := "https://graph.threads.net/v1.0"

/-- HTTP response as the client observes it. -/
structure HttpResponse where
  status_code : Nat
  body : String
deriving DecidableEq

/-- Errors escaping _make_api_request: HTTPError raised by
raise_for_status (carrying the response status and body), or a
transport-level RequestException. -/
inductive ApiErr where
  | httpError (status : Nat) (body : String)
  | transportError
deriving DecidableEq

/-- _make_api_request (lines 75-99): issue the GET; raise_for_status
raises an HTTPError for any 4xx or 5xx status (the except clause
re-raises it); only on success sleep api_delay and return the response.
The Nat component is the time slept during the call. -/
def _make_api_request (api_delay : Nat) (outcome : Except Unit HttpResponse) :
    Except ApiErr HttpResponse × Nat :=
  match outcome with
  | .error _ => (.error .transportError, 0)
  | .ok response =>
      if 400 ≤ response.status_code ∧ response.status_code < 600 then
        (.error (.httpError response.status_code response.body), 0)
      else
        (.ok response, api_delay)

/-! ## Pagination (src/threads_api/client.py lines 101-159)

The upstream is an oracle from (endpoint, limit parameter, since
parameter) to either a page response or a raised exception (which also
covers a failing response.json()). The `fuel` argument bounds the number
of iterations of the source's while loop, making the recursion total; the
theorems hold for every fuel. The trace component is ghost
instrumentation recording, for each page request issued, the endpoint,
the limit parameter sent, and the number of posts accumulated before the
request. -/

/-- Helper loop of py_split: scan the characters, cutting a piece at each
leftmost non-overlapping occurrence of the separator; fuel is the number
of characters still to be consumed. -/
def py_split_go (sep : List Char) : Nat → List Char → List Char → List (List Char)
  | 0, piece, s => [piece ++ s]
  | _ + 1, piece, [] => [piece]
  | fuel + 1, piece, c :: cs =>
      if sep ≠ [] ∧ sep.isPrefixOf (c :: cs) then
        piece :: py_split_go sep fuel [] ((c :: cs).drop sep.length)
      else
        py_split_go sep fuel (piece ++ [c]) cs

/-- Python str.split with a non-empty separator: pieces between leftmost
non-overlapping occurrences of the separator. -/
def py_split (s sep : String) : List String :=
  (py_split_go sep.data s.data.length [] s.data).map String.mk

/-- Endpoint extracted from a next-page URL,
next_page.split(base_url plus slash)[-1] at line 151. -/
def strip_next_url (url : String) : String :=
  (py_split url (base_url ++ "/")).getLastD ""

/-- Parsed page response: the data list (absent key defaults to an empty
list via .get) and the paging.next link. -/
structure PageResp (α : Type) where
  data : Option (List α)
  next : Option String
deriving DecidableEq

/-- Entry of the ghost request trace: endpoint, limit parameter,
accumulated post count before the request. -/
structure PageReq where
  endpoint : String
  req_limit : Nat
  acc_before : Nat
deriving DecidableEq

/-- While loop of get_user_posts. In test mode the loop breaks once limit
posts were accumulated and requests min(remaining, batch_size) posts;
otherwise it requests batch_size posts. A raised exception logs and
breaks, keeping the posts accumulated so far. The next endpoint is the
last component of the next URL split on the base URL; pagination ends
when the next link is absent or falsy. -/
def get_user_posts_loop {α : Type}
    (net : String → Nat → Option String → Except Unit (PageResp α))
    (batch_size limit : Nat) (is_test_mode : Bool) (since : Option String) :
    Nat → String → List α → List PageReq → List α × List PageReq
  | 0, _, all_posts, trace => (all_posts, trace)
  | fuel + 1, next_page, all_posts, trace =>
      if is_test_mode ∧ limit ≤ all_posts.length then (all_posts, trace)
      else
        let current_batch :=
          if is_test_mode then min (limit - all_posts.length) batch_size
          else batch_size
        let trace2 := trace ++ [⟨next_page, current_batch, all_posts.length⟩]
        match net next_page current_batch since with
        | .error _ => (all_posts, trace2)
        | .ok resp =>
            let all_posts2 := all_posts ++ resp.data.getD []
            match resp.next with
            | none => (all_posts2, trace2)
            | some url =>
                if url = "" then (all_posts2, trace2)
                else
                  let ep := strip_next_url url
                  if ep = "" then (all_posts2, trace2)
                  else get_user_posts_loop net batch_size limit is_test_mode since
                    fuel ep all_posts2 trace2

/-- get_user_posts (lines 101-159): run the pagination loop from the
me/threads endpoint with no posts accumulated. -/
def get_user_posts {α : Type}
    (net : String → Nat → Option String → Except Unit (PageResp α))
    (batch_size limit : Nat) (is_test_mode : Bool) (since : Option String)
    (fuel : Nat) : List α × List PageReq :=
  get_user_posts_loop net batch_size limit is_test_mode since fuel "me/threads" [] []

/-! ## Insights batch engine (src/threads_api/client.py lines 161-259)

The metrics oracle maps (endpoint, metric parameter) to a raised
exception or the parsed insights response: none models a falsy response
json or one without a data key, some holds the data entries. The workers
of a sub-batch only read shared state, and the orchestrating loop merges
their results and updates the cache sequentially in submission order, so
the sequential fold is an exact model of the collection loop. -/

/-- Element of a values list of one metric entry; the value key may be
absent (.get defaults it to 0). -/
structure ValueObj where
  value : Option Nat
deriving DecidableEq

/-- One entry of the insights data list: the metric name, an optional
values list (none models an absent or falsy values key) and an optional
total_value object (none models an absent or falsy total_value key). -/
structure MetricEntry where
  name : String
  values : Option (List ValueObj)
  total_value : Option ValueObj
deriving DecidableEq

/-- Zero-filled metric bundle, the dict comprehension mapping every
configured metric to 0. -/
def zero_insights (metrics : List String) : List (String × Nat) :=
  metrics.foldl (fun d m => dinsert m 0 d) []

/-- Success-path parsing of _process_single_insight (lines 182-190):
start zero-filled, then for each returned entry take values[0].value when
the values list is present and nonempty, else total_value.value when
total_value is present. -/
def parse_insights (metrics : List String) (resp : Option (List MetricEntry)) :
    List (String × Nat) :=
  match resp with
  | none => zero_insights metrics
  | some entries =>
      entries.foldl (fun insights e =>
        match e.values with
        | some (v :: _) => dinsert e.name (v.value.getD 0) insights
        | _ =>
            match e.total_value with
            | some tv => dinsert e.name (tv.value.getD 0) insights
            | none => insights) (zero_insights metrics)

/-- _process_single_insight (lines 174-196): request post_id/insights
with the comma-joined metric list; any raised exception is caught and
yields the zero-filled bundle for this post only. -/
def _process_single_insight (metrics : List String)
    (net : String → String → Except Unit (Option (List MetricEntry)))
    (post_id : String) : String × List (String × Nat) :=
  match net (post_id ++ "/insights") (String.intercalate "," metrics) with
  | .error _ => (post_id, zero_insights metrics)
  | .ok resp => (post_id, parse_insights metrics resp)

/-- Cache entry stored under a post id (lines 167-172). -/
structure CacheEntry where
  data : List (String × Nat)
  timestamp : Nat
deriving DecidableEq

/-- _should_update_cache (lines 161-165): true when the id is absent or
the entry is older than cache_duration. -/
def _should_update_cache (now cache_duration : Nat)
    (cache : List (String × CacheEntry)) (post_id : String) : Bool :=
  match dget cache post_id with
  | none => true
  | some entry => decide (cache_duration < now - entry.timestamp)

/-- _update_cache (lines 167-172): store the insights under the id with
the current time. -/
def _update_cache (now : Nat) (post_id : String) (insights : List (String × Nat))
    (cache : List (String × CacheEntry)) : List (String × CacheEntry) :=
  dinsert post_id ⟨insights, now⟩ cache

/-- State threaded through get_post_insights: the result map, the cache
dict, and a ghost list of the ids handed to _process_single_insight, in
order. -/
structure InsightsRun where
  insights_map : List (String × List (String × Nat))
  cache : List (String × CacheEntry)
  fetched : List String
deriving DecidableEq

/-- Result-collection step for one worker (lines 238-254): merge the
worker result into the map, update the cache when use_cache is set. -/
def insights_step (metrics : List String)
    (net : String → String → Except Unit (Option (List MetricEntry)))
    (now : Nat) (use_cache : Bool) (st : InsightsRun) (pid : String) : InsightsRun :=
  let r := _process_single_insight metrics net pid
  { insights_map := dinsert r.1 r.2 st.insights_map
    cache := if use_cache then _update_cache now r.1 r.2 st.cache else st.cache
    fetched := st.fetched ++ [pid] }

/-- Sub-batch loop of get_post_insights (lines 225-256): slice the miss
list into chunks of insights_batch_size and process each chunk; fuel
bounds the iteration count of the range loop (any fuel of at least the
miss-list length is exact). -/
def process_batches (metrics : List String)
    (net : String → String → Except Unit (Option (List MetricEntry)))
    (now : Nat) (use_cache : Bool) (insights_batch_size : Nat) :
    Nat → List String → InsightsRun → InsightsRun
  | 0, _, st => st
  | _ + 1, [], st => st
  | fuel + 1, ids, st =>
      process_batches metrics net now use_cache insights_batch_size fuel
        (ids.drop insights_batch_size)
        ((ids.take insights_batch_size).foldl
          (insights_step metrics net now use_cache) st)

/-- Cache-hit dict comprehension of line 219: post ids present in the
cache (membership only), mapped to the cached data. -/
def cached_posts_of (cache : List (String × CacheEntry)) (post_ids : List String) :
    List (String × List (String × Nat)) :=
  post_ids.foldl (fun d pid =>
    match dget cache pid with
    | some entry => dinsert pid entry.data d
    | none => d) []

/-- get_post_insights (lines 198-259) on a list of ids: build the
cached_posts dict from ids already present in the cache, seed the result
map with it, drop those ids, then batch-process the rest. The timestamp
now is the current time used by _update_cache. -/
def get_post_insights (metrics : List String)
    (net : String → String → Except Unit (Option (List MetricEntry)))
    (now : Nat) (insights_batch_size : Nat)
    (cache : List (String × CacheEntry)) (post_ids : List String)
    (use_cache : Bool) : InsightsRun :=
  let cached_posts := if use_cache then cached_posts_of cache post_ids else []
  let insights_map0 := cached_posts.foldl (fun m p => dinsert p.1 p.2 m) []
  let remaining :=
    if use_cache then post_ids.filter (fun pid => !(dmem pid cached_posts))
    else post_ids
  process_batches metrics net now use_cache insights_batch_size
    remaining.length remaining ⟨insights_map0, cache, []⟩

/-! ## Lemmas about the insights engine -/

theorem foldl_insights_step_fetched (metrics : List String)
    (net : String → String → Except Unit (Option (List MetricEntry)))
    (now : Nat) (uc : Bool) (ids : List String) (st : InsightsRun) :
    (ids.foldl (insights_step metrics net now uc) st).fetched = st.fetched ++ ids := by
  induction ids generalizing st with
  | nil => simp
  | cons a tl ih =>
      simp only [List.foldl_cons, ih, insights_step]
      simp

theorem foldl_insights_step_cache_false (metrics : List String)
    (net : String → String → Except Unit (Option (List MetricEntry)))
    (now : Nat) (ids : List String) (st : InsightsRun) :
    (ids.foldl (insights_step metrics net now false) st).cache = st.cache := by
  induction ids generalizing st with
  | nil => simp
  | cons a tl ih =>
      simp only [List.foldl_cons, ih, insights_step]
      simp

theorem foldl_insights_step_dget (metrics : List String)
    (net : String → String → Except Unit (Option (List MetricEntry)))
    (now : Nat) (uc : Bool) (ids : List String) (st : InsightsRun) (pid : String) :
    dget (ids.foldl (insights_step metrics net now uc) st).insights_map pid =
      if pid ∈ ids then some (_process_single_insight metrics net pid).2
      else dget st.insights_map pid := by
  induction ids generalizing st with
  | nil => simp
  | cons a tl ih =>
      simp only [List.foldl_cons, ih]
      by_cases htl : pid ∈ tl
      · simp [htl, List.mem_cons]
      · by_cases ha : a = pid
        · subst ha
          simp only [htl, if_false, insights_step]
          have hfst : (_process_single_insight metrics net a).1 = a := by
            simp only [_process_single_insight]
            cases net (a ++ "/insights") (String.intercalate "," metrics) <;> simp
          rw [hfst]
          simp [dget_dinsert_self]
        · simp only [htl, if_false, insights_step]
          have hfst : (_process_single_insight metrics net a).1 = a := by
            simp only [_process_single_insight]
            cases net (a ++ "/insights") (String.intercalate "," metrics) <;> simp
          rw [hfst]
          rw [dget_dinsert_ne _ _ _ _ ha]
          have hmem : pid ∉ a :: tl := by
            simp only [List.mem_cons]
            rintro (h | h)
            · exact ha h.symm
            · exact htl h
          rw [if_neg hmem]

theorem foldl_insights_step_keys_nodup (metrics : List String)
    (net : String → String → Except Unit (Option (List MetricEntry)))
    (now : Nat) (uc : Bool) (ids : List String) (st : InsightsRun)
    (h : (dkeys st.insights_map).Nodup) :
    (dkeys (ids.foldl (insights_step metrics net now uc) st).insights_map).Nodup := by
  induction ids generalizing st with
  | nil => simpa using h
  | cons a tl ih =>
      simp only [List.foldl_cons]
      exact ih _ (dkeys_nodup_dinsert _ _ _ h)

theorem foldl_insights_step_map_eq (metrics : List String)
    (net : String → String → Except Unit (Option (List MetricEntry)))
    (now : Nat) (uc : Bool) (ids : List String)
    (m : List (String × List (String × Nat)))
    (c c2 : List (String × CacheEntry)) (f f2 : List String) :
    (ids.foldl (insights_step metrics net now uc) ⟨m, c, f⟩).insights_map =
      (ids.foldl (insights_step metrics net now uc) ⟨m, c2, f2⟩).insights_map := by
  induction ids generalizing m c c2 f f2 with
  | nil => simp
  | cons a tl ih =>
      simp only [List.foldl_cons, insights_step]
      exact ih _ _ _ _ _

theorem process_batches_eq_foldl (metrics : List String)
    (net : String → String → Except Unit (Option (List MetricEntry)))
    (now : Nat) (uc : Bool) (bsz : Nat) (hb : 0 < bsz) :
    ∀ (fuel : Nat) (ids : List String) (st : InsightsRun), ids.length ≤ fuel →
      process_batches metrics net now uc bsz fuel ids st =
        ids.foldl (insights_step metrics net now uc) st := by
  intro fuel
  induction fuel with
  | zero =>
      intro ids st hlen
      have : ids = [] := List.length_eq_zero.mp (Nat.le_zero.mp hlen)
      subst this
      simp [process_batches]
  | succ n ih =>
      intro ids st hlen
      match ids with
      | [] => simp [process_batches]
      | a :: tl =>
          have hstep : process_batches metrics net now uc bsz (n + 1) (a :: tl) st =
              process_batches metrics net now uc bsz n ((a :: tl).drop bsz)
                (((a :: tl).take bsz).foldl (insights_step metrics net now uc) st) := rfl
          rw [hstep]
          rw [ih _ _ (by simp only [List.length_drop]; simp only [List.length_cons] at hlen ⊢; omega)]
          rw [← List.foldl_append, List.take_append_drop]

theorem dget_cached_posts (cache : List (String × CacheEntry))
    (post_ids : List String) (k : String) :
    dget (cached_posts_of cache post_ids) k =
      if k ∈ post_ids ∧ dmem k cache then Option.map CacheEntry.data (dget cache k)
      else none := by
  have aux : ∀ (ids : List String) (d0 : List (String × List (String × Nat))),
      dget (ids.foldl (fun d pid =>
        match dget cache pid with
        | some entry => dinsert pid entry.data d
        | none => d) d0) k =
        if k ∈ ids ∧ dmem k cache then Option.map CacheEntry.data (dget cache k)
        else dget d0 k := by
    intro ids
    induction ids with
    | nil => simp
    | cons a tl ih =>
        intro d0
        simp only [List.foldl_cons, ih]
        by_cases htl : k ∈ tl ∧ dmem k cache = true
        · simp [htl, List.mem_cons, htl.1, htl.2]
        · simp only [htl, if_false]
          by_cases ha : a = k
          · subst ha
            cases hc : dget cache a with
            | none =>
                have hm : dmem a cache = false := by simp [dmem, hc]
                simp [hc, hm]
            | some entry =>
                have hm : dmem a cache = true := by simp [dmem, hc]
                simp only [hc, dget_dinsert_self]
                simp [List.mem_cons, hm, hc]
          · cases hc : dget cache a with
            | none =>
                simp only [hc]
                have : (k ∈ a :: tl ∧ dmem k cache = true) ↔ (k ∈ tl ∧ dmem k cache = true) := by
                  simp only [List.mem_cons]
                  constructor
                  · rintro ⟨h1 | h1, h2⟩
                    · exact absurd h1.symm ha
                    · exact ⟨h1, h2⟩
                  · exact fun h => ⟨Or.inr h.1, h.2⟩
                rw [if_neg (fun h => htl (this.mp h))]
            | some entry =>
                simp only [hc]
                rw [dget_dinsert_ne _ _ _ _ ha]
                have : (k ∈ a :: tl ∧ dmem k cache = true) ↔ (k ∈ tl ∧ dmem k cache = true) := by
                  simp only [List.mem_cons]
                  constructor
                  · rintro ⟨h1 | h1, h2⟩
                    · exact absurd h1.symm ha
                    · exact ⟨h1, h2⟩
                  · exact fun h => ⟨Or.inr h.1, h.2⟩
                rw [if_neg (fun h => htl (this.mp h))]
  have := aux post_ids []
  simpa [cached_posts_of, dget] using this

theorem cached_posts_keys_nodup (cache : List (String × CacheEntry))
    (post_ids : List String) : (dkeys (cached_posts_of cache post_ids)).Nodup := by
  have aux : ∀ (ids : List String) (d0 : List (String × List (String × Nat))),
      (dkeys d0).Nodup →
      (dkeys (ids.foldl (fun d pid =>
        match dget cache pid with
        | some entry => dinsert pid entry.data d
        | none => d) d0)).Nodup := by
    intro ids
    induction ids with
    | nil => exact fun d0 h => h
    | cons a tl ih =>
        intro d0 h
        simp only [List.foldl_cons]
        cases hc : dget cache a with
        | none => exact ih d0 h
        | some entry => exact ih _ (dkeys_nodup_dinsert _ _ _ h)
  exact aux post_ids [] (by simp [dkeys])

theorem dget_foldl_dinsert {β : Type} (l : List (String × β)) (k : String)
    (hnd : (dkeys l).Nodup) (m0 : List (String × β)) :
    dget (l.foldl (fun m p => dinsert p.1 p.2 m) m0) k =
      if dmem k l then dget l k else dget m0 k := by
  induction l generalizing m0 with
  | nil => simp [dmem, dget]
  | cons hd tl ih =>
      obtain ⟨k1, v1⟩ := hd
      simp only [dkeys, List.map_cons, List.nodup_cons] at hnd
      simp only [List.foldl_cons]
      rw [ih (by simpa [dkeys] using hnd.2)]
      by_cases htl : dmem k tl = true
      · have hk1 : k1 ≠ k := by
          intro h
          subst h
          exact hnd.1 ((dmem_iff_mem_dkeys tl k1).mp htl)
        have hcons : dget ((k1, v1) :: tl) k = dget tl k := by simp [dget, hk1]
        have hcons2 : dmem k ((k1, v1) :: tl) = dmem k tl := by simp [dmem, hcons]
        rw [hcons2, htl, hcons]
        simp
      · simp only [htl, if_false]
        by_cases hk1 : k1 = k
        · subst hk1
          simp [dmem, dget, dget_dinsert_self]
        · rw [dget_dinsert_ne _ _ _ _ hk1]
          have h1 : dmem k ((k1, v1) :: tl) = dmem k tl := by
            simp [dmem, dget, hk1]
          rw [h1]
          simp only [htl, if_false]
          have h2 : dget ((k1, v1) :: tl) k = dget tl k := by
            simp [dget, hk1]
          simp [htl]

theorem foldl_dinsert_keys_nodup {β : Type} (l : List (String × β))
    (m0 : List (String × β)) (h : (dkeys m0).Nodup) :
    (dkeys (l.foldl (fun m p => dinsert p.1 p.2 m) m0)).Nodup := by
  induction l generalizing m0 with
  | nil => exact h
  | cons hd tl ih =>
      simp only [List.foldl_cons]
      exact ih _ (dkeys_nodup_dinsert _ _ _ h)

theorem remaining_filter_eq (cache : List (String × CacheEntry)) (ids : List String) :
    ids.filter (fun pid => !(dmem pid (cached_posts_of cache ids))) =
      ids.filter (fun pid => !(dmem pid cache)) := by
  apply List.filter_congr
  intro pid hmem
  have h := dget_cached_posts cache ids pid
  by_cases hc : dmem pid cache = true
  · have : dget (cached_posts_of cache ids) pid =
        Option.map CacheEntry.data (dget cache pid) := by
      rw [h, if_pos ⟨hmem, hc⟩]
    have hsome : (dget cache pid).isSome = true := hc
    simp only [dmem, this, hc]
    cases hd : dget cache pid with
    | none => rw [hd] at hsome; simp at hsome
    | some e => simp
  · have : dget (cached_posts_of cache ids) pid = none := by
      rw [h, if_neg (fun hh => hc hh.2)]
    simp only [dmem, this]
    simp only [dmem] at hc
    simp [hc]

theorem get_post_insights_true_fetched (metrics : List String)
    (net : String → String → Except Unit (Option (List MetricEntry)))
    (now : Nat) (bsz : Nat) (hb : 0 < bsz)
    (cache : List (String × CacheEntry)) (ids : List String) :
    (get_post_insights metrics net now bsz cache ids true).fetched =
      ids.filter (fun pid => !(dmem pid cache)) := by
  simp only [get_post_insights, if_true]
  rw [process_batches_eq_foldl metrics net now true bsz hb _ _ _ (Nat.le_refl _)]
  rw [foldl_insights_step_fetched]
  simp [remaining_filter_eq]

theorem get_post_insights_true_dget (metrics : List String)
    (net : String → String → Except Unit (Option (List MetricEntry)))
    (now : Nat) (bsz : Nat) (hb : 0 < bsz)
    (cache : List (String × CacheEntry)) (ids : List String) (k : String) :
    dget (get_post_insights metrics net now bsz cache ids true).insights_map k =
      if k ∈ ids then
        (if dmem k cache then Option.map CacheEntry.data (dget cache k)
         else some (_process_single_insight metrics net k).2)
      else none := by
  simp only [get_post_insights, if_true]
  rw [process_batches_eq_foldl metrics net now true bsz hb _ _ _ (Nat.le_refl _)]
  rw [foldl_insights_step_dget]
  rw [remaining_filter_eq]
  rw [dget_foldl_dinsert _ _ (cached_posts_keys_nodup cache ids) []]
  by_cases hk : k ∈ ids
  · by_cases hc : dmem k cache = true
    · have hnr : k ∉ ids.filter (fun pid => !(dmem pid cache)) := by
        simp [List.mem_filter, hc]
      rw [if_neg hnr]
      have hmem : dmem k (cached_posts_of cache ids) = true := by
        simp only [dmem, dget_cached_posts, hk, hc, and_self, if_true]
        have hsome : (dget cache k).isSome = true := hc
        cases hd : dget cache k with
        | none => rw [hd] at hsome; simp at hsome
        | some e => simp
      rw [if_pos hmem, dget_cached_posts, if_pos ⟨hk, hc⟩]
      simp [hk, hc]
    · have hr : k ∈ ids.filter (fun pid => !(dmem pid cache)) := by
        simp [List.mem_filter, hk, hc]
      rw [if_pos hr]
      simp [hk, hc]
  · have hnr : k ∉ ids.filter (fun pid => !(dmem pid cache)) := by
      simp [List.mem_filter, hk]
    rw [if_neg hnr]
    have hmem : dmem k (cached_posts_of cache ids) = false := by
      simp only [dmem, dget_cached_posts]
      rw [if_neg (fun hh => hk hh.1)]
      simp
    rw [if_neg (by simp [hmem])]
    simp [hk, dget]

theorem get_post_insights_true_keys_nodup (metrics : List String)
    (net : String → String → Except Unit (Option (List MetricEntry)))
    (now : Nat) (bsz : Nat) (hb : 0 < bsz)
    (cache : List (String × CacheEntry)) (ids : List String) :
    (dkeys (get_post_insights metrics net now bsz cache ids true).insights_map).Nodup := by
  simp only [get_post_insights, if_true]
  rw [process_batches_eq_foldl metrics net now true bsz hb _ _ _ (Nat.le_refl _)]
  exact foldl_insights_step_keys_nodup _ _ _ _ _ _
    (foldl_dinsert_keys_nodup _ [] (by simp [dkeys]))

theorem get_post_insights_false_run (metrics : List String)
    (net : String → String → Except Unit (Option (List MetricEntry)))
    (now : Nat) (bsz : Nat) (hb : 0 < bsz)
    (cache : List (String × CacheEntry)) (ids : List String) :
    get_post_insights metrics net now bsz cache ids false =
      ids.foldl (insights_step metrics net now false) ⟨[], cache, []⟩ := by
  simp only [get_post_insights, Bool.false_eq_true, if_false, List.foldl_nil]
  exact process_batches_eq_foldl metrics net now false bsz hb _ _ _ (Nat.le_refl _)

/-! ## Lemmas about pagination -/

/-- Property of one trace entry asserted by the request-size contract. -/
def page_req_ok (batch_size limit : Nat) (is_test_mode : Bool) (r : PageReq) : Prop :=
  (is_test_mode = true →
    r.req_limit = min (limit - r.acc_before) batch_size ∧ r.acc_before < limit)
  ∧ (is_test_mode = false → r.req_limit = batch_size)

theorem get_user_posts_loop_trace {α : Type}
    (net : String → Nat → Option String → Except Unit (PageResp α))
    (bs limit : Nat) (it : Bool) (since : Option String) :
    ∀ (fuel : Nat) (page : String) (acc : List α) (trace : List PageReq),
      (∀ r ∈ trace, page_req_ok bs limit it r) →
      ∀ r ∈ (get_user_posts_loop net bs limit it since fuel page acc trace).2,
        page_req_ok bs limit it r := by
  intro fuel
  induction fuel with
  | zero =>
      intro page acc trace htr
      simpa [get_user_posts_loop] using htr
  | succ n ih =>
      intro page acc trace htr
      simp only [get_user_posts_loop]
      by_cases hguard : (it = true ∧ limit ≤ acc.length)
      · rw [if_pos hguard]
        exact htr
      · rw [if_neg hguard]
        have hentry : page_req_ok bs limit it
            ⟨page, if it = true then min (limit - acc.length) bs else bs, acc.length⟩ := by
          constructor
          · intro hit
            constructor
            · simp [hit]
            · by_contra hge
              exact hguard ⟨hit, Nat.le_of_not_lt hge⟩
          · intro hit
            simp [hit]
        have htr2 : ∀ r ∈ trace ++
            [⟨page, if it = true then min (limit - acc.length) bs else bs, acc.length⟩],
            page_req_ok bs limit it r := by
          intro r hr
          rcases List.mem_append.mp hr with h | h
          · exact htr r h
          · rw [List.mem_singleton] at h
            subst h
            exact hentry
        cases hnet : net page (if it = true then min (limit - acc.length) bs else bs) since with
        | error e => simpa [hnet] using htr2
        | ok resp =>
            simp only [hnet]
            cases hnext : resp.next with
            | none => simpa using htr2
            | some url =>
                simp only [hnext]
                by_cases hurl : url = ""
                · simpa [hurl] using htr2
                · rw [if_neg hurl]
                  by_cases hep : strip_next_url url = ""
                  · simpa [hep] using htr2
                  · rw [if_neg hep]
                    exact ih _ _ _ htr2

/-! ## Claim theorems -/

/-- C5: for every page-listing run, a failure while fetching any page
(at any reachable loop state that is about to issue a request) makes
get_user_posts stop pagination at that point and return exactly the
items accumulated from the pages fetched before the failure, as a normal
return value rather than an exception; the ghost trace records that the
failing request was issued. -/
theorem c5_page_failure_returns_accumulated {α : Type}
    (net : String → Nat → Option String → Except Unit (PageResp α))
    (bs limit : Nat) (it : Bool) (since : Option String)
    (fuel : Nat) (page : String) (acc : List α) (trace : List PageReq)
    (hguard : ¬(it = true ∧ limit ≤ acc.length))
    (hfail : net page (if it = true then min (limit - acc.length) bs else bs) since =
      .error ()) :
    get_user_posts_loop net bs limit it since (fuel + 1) page acc trace =
      (acc, trace ++
        [⟨page, if it = true then min (limit - acc.length) bs else bs, acc.length⟩]) := by
  simp only [get_user_posts_loop]
  rw [if_neg hguard]
  simp [hfail]

/-- Witness for C5: the mocked three-page listing of the spec; page 1
returns three items and a next link, the page 2 request raises, and the
call returns page 1 items only. -/
theorem c5_page_failure_returns_accumulated_witness :
    (¬((false : Bool) = true ∧ (100 : Nat) ≤ ([1, 2, 3] : List Nat).length))
    ∧ ((fun ep (_ : Nat) (_ : Option String) =>
        if ep = "page2" then (.error () : Except Unit (PageResp Nat))
        else .ok ⟨some [9], none⟩) "page2"
        (if (false : Bool) = true then min (100 - ([1, 2, 3] : List Nat).length) 100
         else 100) none = .error ())
    ∧ get_user_posts_loop
        (fun ep (_ : Nat) (_ : Option String) =>
          if ep = "page2" then (.error () : Except Unit (PageResp Nat))
          else .ok ⟨some [9], none⟩)
        100 100 false none 4 "page2" [1, 2, 3] [⟨"me/threads", 100, 0⟩] =
      ([1, 2, 3], [⟨"me/threads", 100, 0⟩, ⟨"page2", 100, 3⟩]) :=
  ⟨by decide, by decide,
    c5_page_failure_returns_accumulated
      (fun ep (_ : Nat) (_ : Option String) =>
        if ep = "page2" then (.error () : Except Unit (PageResp Nat))
        else .ok ⟨some [9], none⟩)
      100 100 false none 3 "page2" [1, 2, 3] [⟨"me/threads", 100, 0⟩]
      (by decide) (by decide)⟩

/-- C9: every page request of a get_user_posts run asks, in test mode,
for min(limit minus items collected so far, batch size) items and is only
issued while fewer than limit items have been collected; outside test
mode every page request asks for the fixed batch size, and a successful
page carrying a next link makes the loop continue with the stripped next
endpoint. -/
theorem c9_page_request_sizes {α : Type}
    (net : String → Nat → Option String → Except Unit (PageResp α))
    (bs limit : Nat) (it : Bool) (since : Option String) (fuel : Nat) :
    (∀ r ∈ (get_user_posts net bs limit it since fuel).2,
      (it = true → r.req_limit = min (limit - r.acc_before) bs ∧ r.acc_before < limit)
      ∧ (it = false → r.req_limit = bs))
    ∧ (∀ (fuel2 : Nat) (page : String) (acc : List α) (trace : List PageReq)
        (resp : PageResp α) (url : String),
        it = false → net page bs since = .ok resp → resp.next = some url →
        url ≠ "" → strip_next_url url ≠ "" →
        get_user_posts_loop net bs limit it since (fuel2 + 1) page acc trace =
          get_user_posts_loop net bs limit it since fuel2 (strip_next_url url)
            (acc ++ resp.data.getD []) (trace ++ [⟨page, bs, acc.length⟩])) := by
  constructor
  · intro r hr
    exact get_user_posts_loop_trace net bs limit it since fuel "me/threads" [] []
      (by simp) r hr
  · intro fuel2 page acc trace resp url hit hok hnext hurl hep
    subst hit
    simp only [get_user_posts_loop]
    rw [if_neg (by simp)]
    simp [hok, hnext, hurl, hep]

/-- Witness for C9: in a test-mode run with limit 5, the second page
request recorded in the trace asks for min(5 - 3, 100) = 2 items and was
issued with 3 of 5 items collected. -/
theorem c9_page_request_sizes_witness :
    ((⟨"page2", 2, 3⟩ : PageReq) ∈
      (get_user_posts
        (fun ep (_ : Nat) (_ : Option String) =>
          if ep = "me/threads" then
            (.ok ⟨some [1, 2, 3], some (base_url ++ "/page2")⟩ : Except Unit (PageResp Nat))
          else .error ())
        100 5 true none 10).2)
    ∧ ((2 : Nat) = min (5 - 3) 100 ∧ (3 : Nat) < 5) :=
  ⟨by decide,
    ((c9_page_request_sizes
      (fun ep (_ : Nat) (_ : Option String) =>
        if ep = "me/threads" then
          (.ok ⟨some [1, 2, 3], some (base_url ++ "/page2")⟩ : Except Unit (PageResp Nat))
        else .error ())
      100 5 true none 10).1 ⟨"page2", 2, 3⟩ (by decide)).1 rfl⟩

/-- C6, counterexample to the claim as stated: at a 500 response the
request raises an HTTP error carrying the status but the inter-request
delay is not slept (0 slept, refuting that the sleep happens regardless
of failure); at a 304 response, which is not 2xx, no API error is
raised and the response is returned after the delay. -/
theorem c6_unconditional_sleep_counterexample :
    _make_api_request 1 (.ok ⟨500, "server error"⟩) =
      (.error (.httpError 500 "server error"), 0)
    ∧ _make_api_request 1 (.ok ⟨304, "not modified"⟩) =
      (.ok ⟨304, "not modified"⟩, 1) := by
  constructor <;> rfl

/-- C6 as amended: a 4xx or 5xx response makes _make_api_request raise an
API error carrying the status and body with no sleep performed; any other
response is returned after sleeping the fixed delay; a transport failure
propagates with no sleep performed. -/
theorem c6_error_raising_and_delay (api_delay : Nat)
    (outcome : Except Unit HttpResponse) :
    (∀ resp, outcome = .ok resp →
      ((400 ≤ resp.status_code ∧ resp.status_code < 600) →
        _make_api_request api_delay outcome =
          (.error (.httpError resp.status_code resp.body), 0))
      ∧ (¬(400 ≤ resp.status_code ∧ resp.status_code < 600) →
        _make_api_request api_delay outcome = (.ok resp, api_delay)))
    ∧ (outcome = .error () →
      _make_api_request api_delay outcome = (.error .transportError, 0)) := by
  constructor
  · intro resp hok
    subst hok
    constructor
    · intro h
      simp [_make_api_request, h]
    · intro h
      simp [_make_api_request, h]
  · intro herr
    subst herr
    rfl

/-- Witness for C6 as amended: a 503 response raises the HTTP error with
zero sleep. -/
theorem c6_error_raising_and_delay_witness :
    ((Except.ok ⟨503, "unavailable"⟩ : Except Unit HttpResponse) = .ok ⟨503, "unavailable"⟩)
    ∧ ((400 ≤ 503 ∧ 503 < 600))
    ∧ _make_api_request 2 (.ok ⟨503, "unavailable"⟩) =
        (.error (.httpError 503 "unavailable"), 0) :=
  ⟨rfl, by decide,
    ((c6_error_raising_and_delay 2 (.ok ⟨503, "unavailable"⟩)).1
      ⟨503, "unavailable"⟩ rfl).1 (by decide)⟩

/-- C1, evaluation at the failing input: a cache entry 4000 seconds old
with cache_duration 3600 is stale, and the helper _should_update_cache
says so; yet get_post_insights with use_cache set performs no fetch for
that id and serves the stale cached data, because line 219 tests only
membership and never consults _should_update_cache or cache_duration.
The claim requires exactly one new network fetch for such an item. -/
theorem c1_stale_entry_served_without_fetch :
    _should_update_cache 4000 3600 [("17841400000000001", ⟨[("views", 7)], 0⟩)]
      "17841400000000001" = true
    ∧ (get_post_insights ["views", "likes", "replies", "reposts", "quotes", "shares"]
        (fun _ _ => .ok (some [])) 4000 10
        [("17841400000000001", ⟨[("views", 7)], 0⟩)] ["17841400000000001"]
        true).fetched = []
    ∧ dget (get_post_insights ["views", "likes", "replies", "reposts", "quotes", "shares"]
        (fun _ _ => .ok (some [])) 4000 10
        [("17841400000000001", ⟨[("views", 7)], 0⟩)] ["17841400000000001"]
        true).insights_map "17841400000000001" = some [("views", 7)] := by
  refine ⟨rfl, by decide, by decide⟩

/-- C2: for distinct requested ids of which K are already present in the
cache, get_post_insights with use_cache set hands exactly N minus K ids
to the per-item fetch, and the returned map has pairwise distinct keys
that are exactly the requested ids. -/
theorem c2_fetch_count_and_result_keys (metrics : List String)
    (net : String → String → Except Unit (Option (List MetricEntry)))
    (now bsz : Nat) (cache : List (String × CacheEntry)) (post_ids : List String)
    (hb : 0 < bsz) (_hnd : post_ids.Nodup) :
    (get_post_insights metrics net now bsz cache post_ids true).fetched.length =
      post_ids.length - (post_ids.filter (fun pid => dmem pid cache)).length
    ∧ (get_post_insights metrics net now bsz cache post_ids true).fetched.length +
      (post_ids.filter (fun pid => dmem pid cache)).length = post_ids.length
    ∧ (dkeys (get_post_insights metrics net now bsz cache post_ids true).insights_map).Nodup
    ∧ (∀ k, k ∈ dkeys (get_post_insights metrics net now bsz cache post_ids
        true).insights_map ↔ k ∈ post_ids) := by
  have hfetch := get_post_insights_true_fetched metrics net now bsz hb cache post_ids
  have hsum : post_ids.length =
      (post_ids.filter (fun pid => dmem pid cache)).length +
      (post_ids.filter (fun pid => !(dmem pid cache))).length :=
    List.length_eq_length_filter_add _
  refine ⟨?_, ?_, get_post_insights_true_keys_nodup metrics net now bsz hb cache post_ids, ?_⟩
  · rw [hfetch]
    omega
  · rw [hfetch]
    omega
  · intro k
    rw [← dmem_iff_mem_dkeys]
    have h := get_post_insights_true_dget metrics net now bsz hb cache post_ids k
    constructor
    · intro hdm
      by_contra hk
      rw [dmem, h, if_neg hk] at hdm
      simp at hdm
    · intro hk
      rw [dmem, h, if_pos hk]
      by_cases hc : dmem k cache = true
      · rw [if_pos hc]
        have hsome : (dget cache k).isSome = true := hc
        cases hd : dget cache k with
        | none => rw [hd] at hsome; simp at hsome
        | some e => simp
      · rw [if_neg hc]
        simp

/-- Witness for C2: three distinct ids with one of them cached, so two
are fetched. -/
theorem c2_fetch_count_and_result_keys_witness :
    (0 < 10) ∧ (["a", "b", "c"] : List String).Nodup
    ∧ (get_post_insights ["views"] (fun _ _ => .ok none) 50 10
        [("b", ⟨[("views", 3)], 0⟩)] ["a", "b", "c"] true).fetched.length =
      (["a", "b", "c"] : List String).length -
      ((["a", "b", "c"] : List String).filter
        (fun pid => dmem pid ([("b", ⟨[("views", 3)], 0⟩)] :
          List (String × CacheEntry)))).length :=
  ⟨by decide, by decide,
    (c2_fetch_count_and_result_keys ["views"] (fun _ _ => .ok none) 50 10
      [("b", ⟨[("views", 3)], 0⟩)] ["a", "b", "c"] (by decide) (by decide)).1⟩

/-- C7: a per-item metrics fetch failure yields the zero-filled bundle
for exactly that item in the returned map; every other requested id gets
its cached value or its own fetched result, and changing the network
behaviour of the failing item alone cannot change any other item's
entry. The failure is absorbed, never propagated. -/
theorem c7_per_item_failure_isolated (metrics : List String)
    (net : String → String → Except Unit (Option (List MetricEntry)))
    (now bsz : Nat) (cache : List (String × CacheEntry)) (ids : List String)
    (p : String) (hb : 0 < bsz) (hp : p ∈ ids) (hmiss : dmem p cache = false)
    (hfail : net (p ++ "/insights") (String.intercalate "," metrics) = .error ()) :
    dget (get_post_insights metrics net now bsz cache ids true).insights_map p =
      some (zero_insights metrics)
    ∧ (∀ q, q ∈ ids → q ≠ p →
        dget (get_post_insights metrics net now bsz cache ids true).insights_map q =
          (if dmem q cache then Option.map CacheEntry.data (dget cache q)
           else some ((_process_single_insight metrics net q).2)))
    ∧ (∀ (net2 : String → String → Except Unit (Option (List MetricEntry))),
        (∀ q, q ∈ ids → q ≠ p →
          net2 (q ++ "/insights") (String.intercalate "," metrics) =
            net (q ++ "/insights") (String.intercalate "," metrics)) →
        ∀ q, q ∈ ids → q ≠ p →
          dget (get_post_insights metrics net2 now bsz cache ids true).insights_map q =
            dget (get_post_insights metrics net now bsz cache ids true).insights_map q) := by
  refine ⟨?_, ?_, ?_⟩
  · rw [get_post_insights_true_dget metrics net now bsz hb cache ids p,
      if_pos hp, if_neg (by simp [hmiss])]
    simp [_process_single_insight, hfail]
  · intro q hq hqp
    rw [get_post_insights_true_dget metrics net now bsz hb cache ids q, if_pos hq]
  · intro net2 hagree q hq hqp
    rw [get_post_insights_true_dget metrics net2 now bsz hb cache ids q, if_pos hq]
    rw [get_post_insights_true_dget metrics net now bsz hb cache ids q, if_pos hq]
    by_cases hc : dmem q cache = true
    · rw [if_pos hc, if_pos hc]
    · rw [if_neg hc, if_neg hc]
      simp only [_process_single_insight, hagree q hq hqp]

/-- Witness for C7: two requested ids, the fetch for b raises and b gets
the zero bundle. -/
theorem c7_per_item_failure_isolated_witness :
    (0 < 10) ∧ ("b" ∈ (["a", "b"] : List String))
    ∧ dmem "b" ([] : List (String × CacheEntry)) = false
    ∧ ((fun e (_ : String) =>
        if e = "b/insights" then (.error () : Except Unit (Option (List MetricEntry)))
        else .ok none) ("b" ++ "/insights") (String.intercalate "," ["views"]) = .error ())
    ∧ dget (get_post_insights ["views"]
        (fun e (_ : String) =>
          if e = "b/insights" then (.error () : Except Unit (Option (List MetricEntry)))
          else .ok none)
        50 10 [] ["a", "b"] true).insights_map "b" = some (zero_insights ["views"]) :=
  ⟨by decide, by decide, by decide, by decide,
    (c7_per_item_failure_isolated ["views"]
      (fun e (_ : String) =>
        if e = "b/insights" then (.error () : Except Unit (Option (List MetricEntry)))
        else .ok none)
      50 10 [] ["a", "b"] "b" (by decide) (by decide) (by decide) (by decide)).1⟩

/-- C10: with use_cache disabled, get_post_insights leaves the cache dict
exactly as it was, hands every requested id to the per-item fetch, and
computes a result map that does not depend on the cache contents at all. -/
theorem c10_cache_untouched_when_disabled (metrics : List String)
    (net : String → String → Except Unit (Option (List MetricEntry)))
    (now bsz : Nat) (cache : List (String × CacheEntry)) (ids : List String)
    (hb : 0 < bsz) :
    (get_post_insights metrics net now bsz cache ids false).cache = cache
    ∧ (get_post_insights metrics net now bsz cache ids false).fetched = ids
    ∧ (∀ cache2, (get_post_insights metrics net now bsz cache2 ids false).insights_map =
        (get_post_insights metrics net now bsz cache ids false).insights_map) := by
  refine ⟨?_, ?_, ?_⟩
  · rw [get_post_insights_false_run metrics net now bsz hb cache ids]
    exact foldl_insights_step_cache_false metrics net now ids _
  · rw [get_post_insights_false_run metrics net now bsz hb cache ids]
    rw [foldl_insights_step_fetched]
    simp
  · intro cache2
    rw [get_post_insights_false_run metrics net now bsz hb cache ids,
      get_post_insights_false_run metrics net now bsz hb cache2 ids]
    exact foldl_insights_step_map_eq metrics net now false ids [] cache2 cache [] []

/-- Witness for C10: a stale-entry cache passes through a use_cache false
call unchanged while the entry's id is still fetched. -/
theorem c10_cache_untouched_when_disabled_witness :
    (0 < 10)
    ∧ (get_post_insights ["views"] (fun _ _ => .ok none) 50 10
        [("a", ⟨[("views", 7)], 0⟩)] ["a"] false).cache = [("a", ⟨[("views", 7)], 0⟩)] :=
  ⟨by decide,
    (c10_cache_untouched_when_disabled ["views"] (fun _ _ => .ok none) 50 10
      [("a", ⟨[("views", 7)], 0⟩)] ["a"] (by decide)).1⟩

/-- C3: sealing any credentials mapping with encrypt_credentials and
unsealing the stored blob with load_credentials under the same key
returns the original mapping, through the serialization and the
authenticated encryption. -/
theorem c3_seal_unseal_roundtrip (key : Nat) (m : Creds)
    (_hnd : (m.map Prod.fst).Nodup) :
    load_credentials key (some (encrypt_credentials key m)) = .ok m :=
  load_encrypt_roundtrip key m

/-- Witness for C3: a concrete mapping with a string credential and an
object credential round-trips. -/
theorem c3_seal_unseal_roundtrip_witness :
    ((([("threads_token", .str "tok123"),
        ("google_credentials", .obj [("type", "service_account")])] : Creds).map
      Prod.fst).Nodup)
    ∧ load_credentials 42 (some (encrypt_credentials 42
        [("threads_token", .str "tok123"),
         ("google_credentials", .obj [("type", "service_account")])])) =
      .ok [("threads_token", .str "tok123"),
           ("google_credentials", .obj [("type", "service_account")])] :=
  ⟨by decide,
    c3_seal_unseal_roundtrip 42
      [("threads_token", .str "tok123"),
       ("google_credentials", .obj [("type", "service_account")])] (by decide)⟩

/-- C4: a blob whose ciphertext was corrupted, or one decrypted under a
key other than its minting key, makes load_credentials fail with the
decryption error of the InvalidToken handler; an absent blob file fails
with the distinct error naming the missing credentials file; and an ok
result can only ever be the exact decoding of an intact blob minted
under the same key, so a wrong mapping is never returned silently. -/
theorem c4_tamper_wrong_key_absent (key key2 : Nat) (m : Creds) (tok : FernetToken) :
    load_credentials key (some (tamperToken (encrypt_credentials key m))) =
      .error .invalidToken
    ∧ (key2 ≠ key → load_credentials key2 (some (encrypt_credentials key m)) =
        .error .invalidToken)
    ∧ load_credentials key none = .error (.decryptFailedWrap .fileNotFound)
    ∧ CryptoErr.decryptFailedWrap .fileNotFound ≠ CryptoErr.invalidToken
    ∧ (∀ creds, load_credentials key (some tok) = .ok creds →
        tok.intact = true ∧ tok.minted_key = key ∧ decCreds tok.payload = some creds) := by
  refine ⟨?_, ?_, rfl, by decide, ?_⟩
  · simp [load_credentials, tamperToken, encrypt_credentials, fernetEncrypt, fernetDecrypt]
  · intro hne
    have hne2 : ¬(key = key2) := fun h => hne h.symm
    simp [load_credentials, encrypt_credentials, fernetEncrypt, fernetDecrypt, hne2]
  · intro creds hok
    simp only [load_credentials] at hok
    cases hdec : fernetDecrypt key tok with
    | none =>
        rw [hdec] at hok
        simp at hok
    | some bytes =>
        rw [hdec] at hok
        simp only [] at hok
        have hcond : tok.intact = true ∧ tok.minted_key = key := by
          by_contra hc
          rw [fernetDecrypt, if_neg hc] at hdec
          cases hdec
        have hpayload : bytes = tok.payload := by
          rw [fernetDecrypt, if_pos hcond] at hdec
          injection hdec with h
          exact h.symm
        refine ⟨hcond.1, hcond.2, ?_⟩
        subst hpayload
        cases hparse : decCreds tok.payload with
        | none =>
            rw [hparse] at hok
            simp at hok
        | some c =>
            rw [hparse] at hok
            simp only [Except.ok.injEq] at hok
            rw [← hok]

/-- Witness for C4: decrypting a blob sealed under key 42 with key 43
fails with the decryption error. -/
theorem c4_tamper_wrong_key_absent_witness :
    ((43 : Nat) ≠ 42)
    ∧ load_credentials 43 (some (encrypt_credentials 42
        [("threads_token", .str "tok123")])) = .error .invalidToken :=
  ⟨by decide,
    (c4_tamper_wrong_key_absent 42 43 [("threads_token", .str "tok123")]
      (encrypt_credentials 42 [("threads_token", .str "tok123")])).2.1 (by decide)⟩

/-- C8: get_single_credential on a name absent from the decrypted mapping
fails with the credential-not-found error (wrapped by the outer handler)
and never falls back to a default; for a present name it returns that
single value after unsealing the full mapping. -/
theorem c8_single_credential_lookup (keyName : String) (key : Nat) (m : Creds) :
    (dget m keyName = none →
      get_single_credential keyName key (some (encrypt_credentials key m)) =
        .error (.getCredWrap keyName (.credNotFound keyName)))
    ∧ (∀ v, dget m keyName = some v →
      get_single_credential keyName key (some (encrypt_credentials key m)) = .ok v) := by
  have hload := load_encrypt_roundtrip key m
  constructor
  · intro habs
    simp [get_single_credential, hload, habs]
  · intro v hv
    simp [get_single_credential, hload, hv]

/-- Witness for C8: the name missing is absent from the sealed mapping
and the lookup fails with the not-found error. -/
theorem c8_single_credential_lookup_witness :
    (dget ([("threads_token", .str "tok123")] : Creds) "missing" = none)
    ∧ get_single_credential "missing" 42 (some (encrypt_credentials 42
        [("threads_token", .str "tok123")])) =
      .error (.getCredWrap "missing" (.credNotFound "missing")) :=
  ⟨by decide,
    (c8_single_credential_lookup "missing" 42 [("threads_token", .str "tok123")]).1
      (by decide)⟩

end ThreadsAnalytics
